import Mathlib

/-!
Shallow embedding of `src/interval.rs` from the signum-miner repository: a
modified tokio `Interval` stream that, on every `Delaying` poll, re-arms the
underlying `Delay` to fire at `Instant::now() + self.duration`, so that the
next tick is scheduled one period after the previous cycle completed rather
than on a fixed grid.

Instants and durations are modelled as natural numbers (instants of
`std::time` are opaque monotone values and `Duration` is unsigned, so a
negative period is not expressible).  The underlying `tokio::timer::Delay`
future is modelled by its armed deadline together with the standard poll
contract: polling at wall-clock time `now` is ready exactly when `now` has
reached the deadline, and the timer subsystem may instead fail with a
`tokio::timer::Error`, which is modelled as an injected error value.
-/

namespace SignumMiner

/-- Model of `tokio::timer::Error`: the timer subsystem failed, either
because it was shut down or because it is at capacity. -/
inductive TimerError
  | shutdown
  | atCapacity
  deriving DecidableEq

/-- Model of `enum State` from `interval.rs`: state of the interval
stream, either delaying the next item or awaiting the next item. -/
inductive State
  | Delaying
  | Awaiting
  deriving DecidableEq

/-- Model of `struct Interval`.  The `delay: Delay` field is represented by
its current deadline, the value returned by `self.delay.deadline()` and
mutated in place by `self.delay.reset(..)`. -/
structure Interval where
  delayDeadline : Nat
  duration : Nat
  state : State
  deriving DecidableEq

/-- Model of `Interval::new_with_delay(delay, duration)`: wraps an already
armed delay and starts in state `Delaying`. -/
def Interval.new_with_delay (delayDeadline : Nat) (duration : Nat) : Interval :=
  { delayDeadline := delayDeadline, duration := duration, state := State.Delaying }

/-- Model of `Interval::new(at, duration)`: arms a fresh delay for `at` and
wraps it.  The `assert!` that `duration` must be non-zero panics in the
source; the panic is modelled as `none`. -/
def Interval.new (at_ : Nat) (duration : Nat) : Option Interval :=
  if 0 < duration then some (Interval.new_with_delay at_ duration) else none

/-- Model of `Interval::new_interval(duration)`, which the source defines as
`Interval::new(clock::now() + duration, duration)`; the ambient clock value
`clock::now()` is passed explicitly as `now`. -/
def Interval.new_interval (now : Nat) (duration : Nat) : Option Interval :=
  Interval.new (now + duration) duration

/-- Modelled from the spec: the convenience constructor
`new_starting_now(period)`, which the spec defines as exactly
`new(now() + period, period)`; the ambient clock value is passed
explicitly as `now`.  This spec-side definition is compared with the
source constructor `Interval.new_interval`. -/
def new_starting_now (now : Nat) (duration : Nat) : Option Interval :=
  Interval.new (now + duration) duration

/-- Outcome of one invocation of `<Interval as Stream>::poll`:
`Ok(Async::Ready(Some(instant)))`, `Ok(Async::NotReady)`, or `Err(e)`. -/
inductive PollOut
  | ready (instant : Nat)
  | notReady
  | err (e : TimerError)
  deriving DecidableEq

/-- One invocation of `<Interval as Stream>::poll`, run at wall-clock time
`now`.  `timerErr` injects a failure of the underlying timer subsystem into
the `self.delay.poll()` call (`none` means the timer is healthy).  The body
mirrors the source line by line: first `let now = self.delay.deadline()`
reads the reported instant; then the `match self.state` dispatch resets the
delay to `Instant::now() + self.duration` and flips to `Awaiting` when
`Delaying`, or merely flips to `Delaying` when `Awaiting`; then
`try_ready!(self.delay.poll())` suspends (returns `NotReady`) until the
armed deadline has elapsed, or propagates a timer error; finally
`Ok(Some(now).into())` yields the instant read in the first step. -/
def Interval.poll (i : Interval) (now : Nat) (timerErr : Option TimerError) :
    PollOut × Interval :=
  let reported := i.delayDeadline
  let i' :=
    match i.state with
    | State.Delaying =>
        { i with delayDeadline := now + i.duration, state := State.Awaiting }
    | State.Awaiting =>
        { i with state := State.Delaying }
  match timerErr with
  | some e => (PollOut.err e, i')
  | none =>
      if i'.delayDeadline ≤ now then (PollOut.ready reported, i')
      else (PollOut.notReady, i')

/-- Executor loop driving one logical "produce next value" operation with a
healthy timer: poll at time `t`; on `NotReady` the executor suspends the
task and wakes it exactly when the armed deadline elapses, polling again.
Returns the yielded instant, the wall-clock completion time and the stream
state after completion; `fuel` bounds the number of poll invocations. -/
def Interval.runPoll : Nat → Interval → Nat → Option (Nat × Nat × Interval)
  | 0, _, _ => none
  | fuel + 1, i, t =>
    match Interval.poll i t none with
    | (PollOut.ready v, i') => some (v, t, i')
    | (PollOut.notReady, i') => Interval.runPoll fuel i' i'.delayDeadline
    | (PollOut.err _, _) => none

/-- One logical "produce next value" call whose first poll happens at time
`t`.  From the state `Delaying` that every production starts in, two poll
invocations always suffice. -/
def Interval.produce (i : Interval) (t : Nat) : Option (Nat × Nat × Interval) :=
  Interval.runPoll 2 i t

/-- Run `ps.length` successive "produce next value" calls: the first is
polled at time `t`, and after each completion the consumer processes the
received value for the corresponding entry of `ps` before polling again.
Returns the list of (yielded instant, completion time) pairs. -/
def Interval.trace (i : Interval) (t : Nat) : List Nat → List (Nat × Nat)
  | [] => []
  | p :: ps =>
    match Interval.produce i t with
    | none => []
    | some (v, c, i') => (v, c) :: Interval.trace i' (c + p) ps

theorem Interval.produce_delaying (dl dur t : Nat) (hdur : 0 < dur) :
    Interval.produce ⟨dl, dur, State.Delaying⟩ t =
      some (t + dur, t + dur, ⟨t + dur, dur, State.Delaying⟩) := by
  have h1 : ¬ (t + dur ≤ t) := by omega
  have hpoll1 : Interval.poll ⟨dl, dur, State.Delaying⟩ t none =
      (PollOut.notReady, ⟨t + dur, dur, State.Awaiting⟩) := by
    simp [Interval.poll, h1]
  have hpoll2 : Interval.poll ⟨t + dur, dur, State.Awaiting⟩ (t + dur) none =
      (PollOut.ready (t + dur), ⟨t + dur, dur, State.Delaying⟩) := by
    simp [Interval.poll]
  show Interval.runPoll (1 + 1) ⟨dl, dur, State.Delaying⟩ t = _
  rw [Interval.runPoll, hpoll1]
  show Interval.runPoll (0 + 1) ⟨t + dur, dur, State.Awaiting⟩ (t + dur) = _
  rw [Interval.runPoll, hpoll2]

theorem Interval.new_eq_some (a d : Nat) (i : Interval)
    (h : Interval.new a d = some i) :
    0 < d ∧ i = ⟨a, d, State.Delaying⟩ := by
  by_cases hd : 0 < d
  · refine ⟨hd, ?_⟩
    simp [Interval.new, Interval.new_with_delay, hd] at h
    exact h.symm
  · simp [Interval.new, hd] at h

theorem Interval.trace_cons (dl dur t p : Nat) (ps : List Nat) (hdur : 0 < dur) :
    Interval.trace ⟨dl, dur, State.Delaying⟩ t (p :: ps) =
      (t + dur, t + dur) ::
        Interval.trace ⟨t + dur, dur, State.Delaying⟩ (t + dur + p) ps := by
  rw [Interval.trace, Interval.produce_delaying dl dur t hdur]

theorem Interval.trace_getD (dur : Nat) (hdur : 0 < dur) :
    ∀ (ps : List Nat) (dl t k : Nat), k < ps.length →
      (Interval.trace ⟨dl, dur, State.Delaying⟩ t ps).getD k (0, 0) =
        (t + (k + 1) * dur + (ps.take k).sum,
         t + (k + 1) * dur + (ps.take k).sum) := by
  intro ps
  induction ps with
  | nil => intro dl t k hk; simp at hk
  | cons p ps ih =>
    intro dl t k hk
    rw [Interval.trace_cons dl dur t p ps hdur]
    cases k with
    | zero => simp
    | succ k =>
      have hk2 : k < ps.length := by simpa using hk
      rw [List.getD_cons_succ, ih (t + dur) (t + dur + p) k hk2,
        List.take_succ_cons, List.sum_cons]
      have harith : t + dur + p + (k + 1) * dur + (List.take k ps).sum =
          t + (k + 1 + 1) * dur + (p + (List.take k ps).sum) := by ring
      rw [harith]

theorem sum_take_succ_getD :
    ∀ (ps : List Nat) (k : Nat), k < ps.length →
      (ps.take (k + 1)).sum = (ps.take k).sum + ps.getD k 0 := by
  intro ps
  induction ps with
  | nil => intro k hk; simp at hk
  | cons p ps ih =>
    intro k hk
    cases k with
    | zero => simp
    | succ k =>
      have hk2 : k < ps.length := by simpa using hk
      rw [List.take_succ_cons, List.sum_cons, List.take_succ_cons, List.sum_cons,
        List.getD_cons_succ, ih k hk2]
      omega

theorem sum_take_replicate (d : Nat) :
    ∀ (n k : Nat), k ≤ n → ((List.replicate n d).take k).sum = k * d := by
  intro n
  induction n with
  | zero =>
    intro k hk
    have : k = 0 := by omega
    simp [this]
  | succ n ih =>
    intro k hk
    cases k with
    | zero => simp
    | succ k =>
      have hk2 : k ≤ n := by omega
      rw [List.replicate_succ, List.take_succ_cons, List.sum_cons, ih k hk2,
        Nat.succ_mul]
      omega

/-- C1: Anti-burst guarantee.  For every valid construction and every
processing duration `d` that the consumer takes between receiving one value
and requesting the next, the wall-clock time between successive completions
of the produce-next-value operation is `d + period`, not `period`: each
re-arm computes the new deadline from the clock at the moment it runs, so
no backlog of overdue ticks is ever produced in a burst after an overrun. -/
theorem anti_burst_completions (a dur t d n k : Nat) (i : Interval)
    (hi : Interval.new a dur = some i) (hk : k + 1 < n) :
    ((Interval.trace i t (List.replicate n d)).getD (k + 1) (0, 0)).2 =
      ((Interval.trace i t (List.replicate n d)).getD k (0, 0)).2 + (d + dur) := by
  obtain ⟨hdur, hi2⟩ := Interval.new_eq_some a dur i hi
  subst hi2
  rw [Interval.trace_getD dur hdur _ a t (k + 1) (by simpa using hk),
    Interval.trace_getD dur hdur _ a t k (by simp; omega)]
  show t + (k + 1 + 1) * dur + ((List.replicate n d).take (k + 1)).sum =
    t + (k + 1) * dur + ((List.replicate n d).take k).sum + (d + dur)
  rw [sum_take_replicate d n (k + 1) (by omega), sum_take_replicate d n k (by omega)]
  ring

/-- Witness for C1: period 3, processing delay 10, two productions, gap of
completions between the first and second production. -/
theorem anti_burst_completions_witness :
    ((Interval.trace ⟨3, 3, State.Delaying⟩ 0 (List.replicate 2 10)).getD 1 (0, 0)).2 =
      ((Interval.trace ⟨3, 3, State.Delaying⟩ 0 (List.replicate 2 10)).getD 0 (0, 0)).2 +
        (10 + 3) :=
  anti_burst_completions 3 3 0 10 2 0 ⟨3, 3, State.Delaying⟩ (by decide) (by decide)

/-- C2: Per-invocation algorithm of produce-next-value (`Stream::poll`):
the invocation first reads the current deadline of the underlying timer as
the reported instant; when the phase is `Delaying` it re-arms the timer to
`now() + period` (measured at the moment this step runs) and flips the
phase to `Awaiting`, and when the phase is `Awaiting` it leaves the
deadline untouched and flips the phase to `Delaying`; it then suspends
until the armed deadline has elapsed (it is never ready strictly before
that deadline), and on success it yields exactly the reported instant read
in the first step, never the wall clock. -/
theorem poll_per_invocation (i : Interval) (now : Nat) (e : Option TimerError) :
    (i.state = State.Delaying →
        (Interval.poll i now e).2.delayDeadline = now + i.duration ∧
        (Interval.poll i now e).2.state = State.Awaiting) ∧
    (i.state = State.Awaiting →
        (Interval.poll i now e).2.delayDeadline = i.delayDeadline ∧
        (Interval.poll i now e).2.state = State.Delaying) ∧
    (∀ v, (Interval.poll i now e).1 = PollOut.ready v →
        v = i.delayDeadline ∧ (Interval.poll i now e).2.delayDeadline ≤ now) ∧
    (e = none →
        ((Interval.poll i now e).1 = PollOut.notReady ↔
          now < (Interval.poll i now e).2.delayDeadline)) := by
  rcases i with ⟨dl, dur, st⟩
  cases st <;> rcases e with _ | e <;>
    simp [Interval.poll] <;> split_ifs <;> (simp_all; try omega)

/-- Witness for C2: a `Delaying` poll at time 10 with period 3 re-arms the
deadline to 13 and flips the phase to `Awaiting`. -/
theorem poll_per_invocation_witness :
    (Interval.poll ⟨7, 3, State.Delaying⟩ 10 none).2.delayDeadline = 10 + 3 ∧
    (Interval.poll ⟨7, 3, State.Delaying⟩ 10 none).2.state = State.Awaiting :=
  (poll_per_invocation ⟨7, 3, State.Delaying⟩ 10 none).1 rfl

/-- C3 counterexample: constructing with `new(100, 5)` and driving the
stream from wall-clock time 0 with a healthy timer yields 5 as the first
produced value, not the requested first fire instant 100.  The first poll
invocation (phase `Delaying`) re-arms the timer to `now() + period = 5`,
overwriting the armed deadline 100, and returns not-ready, so the instant
it read is discarded; the resumed poll (phase `Awaiting`) re-reads and
yields the re-armed deadline 5. -/
theorem first_value_counterexample :
    Interval.new 100 5 = some ⟨100, 5, State.Delaying⟩ ∧
    Interval.produce ⟨100, 5, State.Delaying⟩ 0 =
      some (5, 5, ⟨5, 5, State.Delaying⟩) ∧
    (5 : Nat) ≠ 100 :=
  ⟨by decide, by decide, by decide⟩

/-- C3 amended: for every period > 0, every first fire instant and every
time `t` at which the stream is first polled, the first produced value
reports `t + period`, independently of the first fire instant passed to
`new`; it equals the first fire instant exactly when the first poll happens
one period before that instant, as it does for `new_interval` polled at
construction time. -/
theorem first_value_formula (a d t : Nat) (i : Interval)
    (hi : Interval.new a d = some i) :
    Interval.produce i t = some (t + d, t + d, ⟨t + d, d, State.Delaying⟩) := by
  obtain ⟨hd, hi2⟩ := Interval.new_eq_some a d i hi
  subst hi2
  exact Interval.produce_delaying a d t hd

/-- Witness for C3 amended: `new(100, 5)` first polled at time 7 produces
12 as its first value. -/
theorem first_value_formula_witness :
    Interval.produce ⟨100, 5, State.Delaying⟩ 7 =
      some (7 + 5, 7 + 5, ⟨7 + 5, 5, State.Delaying⟩) :=
  first_value_formula 100 5 7 ⟨100, 5, State.Delaying⟩ (by decide)

/-- C4 counterexample: period 3, first poll at time 0, and a consumer that
takes 10 time units to process the first value before requesting the next:
the two produced values report instants 3 and 16, whose gap 13 is not equal
to the period 3. -/
theorem reported_gap_counterexample :
    Interval.new 3 3 = some ⟨3, 3, State.Delaying⟩ ∧
    Interval.trace ⟨3, 3, State.Delaying⟩ 0 [10, 0] = [(3, 3), (16, 16)] ∧
    16 - 3 ≠ 3 :=
  ⟨by decide, by decide, by decide⟩

/-- C4 amended: consecutive reported instants differ by the period plus the
delay the consumer took between receiving the earlier value and requesting
the next; the gap equals exactly the period precisely when that delay is
zero, and exceeds it by the processing time otherwise. -/
theorem reported_gap_formula (a dur t k : Nat) (ps : List Nat) (i : Interval)
    (hi : Interval.new a dur = some i) (hk : k + 1 < ps.length) :
    ((Interval.trace i t ps).getD (k + 1) (0, 0)).1 =
      ((Interval.trace i t ps).getD k (0, 0)).1 + (dur + ps.getD k 0) := by
  obtain ⟨hdur, hi2⟩ := Interval.new_eq_some a dur i hi
  subst hi2
  rw [Interval.trace_getD dur hdur ps a t (k + 1) hk,
    Interval.trace_getD dur hdur ps a t k (by omega)]
  show t + (k + 1 + 1) * dur + (ps.take (k + 1)).sum =
    t + (k + 1) * dur + (ps.take k).sum + (dur + ps.getD k 0)
  rw [sum_take_succ_getD ps k (by omega)]
  ring

/-- Witness for C4 amended: with period 3 and a 10 unit processing delay
the reported gap is 3 + 10. -/
theorem reported_gap_formula_witness :
    ((Interval.trace ⟨3, 3, State.Delaying⟩ 0 [10, 0]).getD 1 (0, 0)).1 =
      ((Interval.trace ⟨3, 3, State.Delaying⟩ 0 [10, 0]).getD 0 (0, 0)).1 +
        (3 + [10, 0].getD 0 0) :=
  reported_gap_formula 3 3 0 0 [10, 0] ⟨3, 3, State.Delaying⟩ (by decide) (by decide)

/-- C5: for every valid construction, the sequence of produced values is
strictly increasing in time: each reported instant strictly exceeds the
previously reported one. -/
theorem reported_strictly_increasing (a dur t k : Nat) (ps : List Nat)
    (i : Interval) (hi : Interval.new a dur = some i) (hk : k + 1 < ps.length) :
    ((Interval.trace i t ps).getD k (0, 0)).1 <
      ((Interval.trace i t ps).getD (k + 1) (0, 0)).1 := by
  obtain ⟨hdur, hi2⟩ := Interval.new_eq_some a dur i hi
  subst hi2
  rw [Interval.trace_getD dur hdur ps a t (k + 1) hk,
    Interval.trace_getD dur hdur ps a t k (by omega)]
  show t + (k + 1) * dur + (ps.take k).sum <
    t + (k + 1 + 1) * dur + (ps.take (k + 1)).sum
  rw [sum_take_succ_getD ps k (by omega)]
  have h2 : (k + 1 + 1) * dur = (k + 1) * dur + dur := by ring
  rw [h2]
  generalize (k + 1) * dur = A
  omega

/-- Witness for C5: the first two produced values of a concrete run are in
strictly increasing order. -/
theorem reported_strictly_increasing_witness :
    ((Interval.trace ⟨3, 3, State.Delaying⟩ 0 [10, 0]).getD 0 (0, 0)).1 <
      ((Interval.trace ⟨3, 3, State.Delaying⟩ 0 [10, 0]).getD 1 (0, 0)).1 :=
  reported_strictly_increasing 3 3 0 0 [10, 0] ⟨3, 3, State.Delaying⟩ (by decide)
    (by decide)

/-- C6: state machine: every freshly constructed interval has phase
`Delaying` (both through `new` and through `new_with_delay`), and every
poll step flips the phase: a step entering in `Delaying` performs the
re-arm and moves to `Awaiting`, a step entering in `Awaiting` performs no
re-arm and moves to `Delaying`, and no step leaves the phase unchanged. -/
theorem state_machine_flip (a dl d t : Nat) (i j : Interval)
    (e : Option TimerError) (hi : Interval.new a d = some i) :
    i.state = State.Delaying ∧
    (Interval.new_with_delay dl d).state = State.Delaying ∧
    (Interval.poll j t e).2.state ≠ j.state ∧
    (j.state = State.Delaying →
        (Interval.poll j t e).2.state = State.Awaiting ∧
        (Interval.poll j t e).2.delayDeadline = t + j.duration) ∧
    (j.state = State.Awaiting →
        (Interval.poll j t e).2.state = State.Delaying ∧
        (Interval.poll j t e).2.delayDeadline = j.delayDeadline) := by
  obtain ⟨hd, hi2⟩ := Interval.new_eq_some a d i hi
  subst hi2
  rcases j with ⟨jdl, jdur, jst⟩
  cases jst <;> rcases e with _ | e <;>
    simp [Interval.poll, Interval.new_with_delay] <;> split_ifs <;> simp_all

/-- Witness for C6: a poll entering in `Awaiting` flips to `Delaying` and
leaves the deadline untouched. -/
theorem state_machine_flip_witness :
    (Interval.poll ⟨11, 2, State.Awaiting⟩ 5 none).2.state = State.Delaying ∧
    (Interval.poll ⟨11, 2, State.Awaiting⟩ 5 none).2.delayDeadline = 11 :=
  (state_machine_flip 6 11 2 5 ⟨6, 2, State.Delaying⟩ ⟨11, 2, State.Awaiting⟩ none
    (by decide)).2.2.2.2 rfl

/-- C7: error path: when the suspend-until-elapsed call of the underlying
timer fails, the poll returns exactly that error, never silently a value,
and the phase is left in whatever state it was already flipped to for this
step (the same state a step with a healthy timer would leave), not rolled
back to its value before the step. -/
theorem error_propagated (i : Interval) (now : Nat) (e : TimerError) :
    (Interval.poll i now (some e)).1 = PollOut.err e ∧
    (∀ v, (Interval.poll i now (some e)).1 ≠ PollOut.ready v) ∧
    (Interval.poll i now (some e)).2 = (Interval.poll i now none).2 ∧
    (Interval.poll i now (some e)).2.state ≠ i.state := by
  rcases i with ⟨dl, dur, st⟩
  cases st <;> simp [Interval.poll] <;> split_ifs <;> simp

/-- Witness for C7: an injected shutdown failure is returned verbatim. -/
theorem error_propagated_witness :
    (Interval.poll ⟨5, 3, State.Delaying⟩ 10 (some TimerError.shutdown)).1 =
      PollOut.err TimerError.shutdown :=
  (error_propagated ⟨5, 3, State.Delaying⟩ 10 TimerError.shutdown).1

/-- C8: construction with period zero fails deterministically every time at
construction time, before any value is produced: in the source the assert
on the period panics, a construction-time fatal error rather than a
recoverable result, modelled here as `none` (a negative period is not
expressible because `Duration` is unsigned); construction with any strictly
positive period succeeds. -/
theorem construction_period_validation (a d : Nat) (hd : 0 < d) :
    Interval.new a 0 = none ∧
    Interval.new a d = some (Interval.new_with_delay a d) := by
  constructor
  · simp [Interval.new]
  · simp [Interval.new, hd]

/-- Witness for C8 at a first fire instant of 7 and a period of 3. -/
theorem construction_period_validation_witness :
    Interval.new 7 0 = none ∧
    Interval.new 7 3 = some (Interval.new_with_delay 7 3) :=
  construction_period_validation 7 3 (by decide)

/-- C9: the convenience constructor `new_interval` agrees with the
spec-side `new_starting_now`, that is with `new(now() + period, period)`,
for every clock value and period; and a stream built by it and first
polled at construction time produces its first value one full period after
construction, not immediately at construction time. -/
theorem new_interval_equiv (now d : Nat) (i : Interval)
    (hi : Interval.new_interval now d = some i) :
    Interval.new_interval now d = new_starting_now now d ∧
    Interval.produce i now =
      some (now + d, now + d, ⟨now + d, d, State.Delaying⟩) ∧
    now < now + d := by
  obtain ⟨hd, hi2⟩ := Interval.new_eq_some (now + d) d i hi
  subst hi2
  exact ⟨rfl, Interval.produce_delaying (now + d) d now hd, by omega⟩

/-- Witness for C9: `new_interval` at clock value 4 with period 3. -/
theorem new_interval_equiv_witness :
    Interval.new_interval 4 3 = new_starting_now 4 3 ∧
    Interval.produce ⟨4 + 3, 3, State.Delaying⟩ 4 =
      some (4 + 3, 4 + 3, ⟨4 + 3, 3, State.Delaying⟩) ∧
    4 < 4 + 3 :=
  new_interval_equiv 4 3 ⟨4 + 3, 3, State.Delaying⟩ (by decide)

/-- C10: every poll invocation mutates the stream state before the suspend
point, regardless of outcome: each call flips the phase exactly once and
preserves the period, a call entering in `Delaying` re-arms the deadline to
`now() + period`, and a call entering in `Awaiting` leaves the deadline
untouched, all independently of whether the call returns ready, not-ready
or an error; consequently two consecutive invocations alternate between
re-arming and leaving the deadline untouched, and the second one restores
the original phase. -/
theorem poll_mutates_before_suspend (i : Interval) (t1 t2 : Nat)
    (e1 e2 : Option TimerError) :
    (Interval.poll i t1 e1).2.state ≠ i.state ∧
    (Interval.poll i t1 e1).2.duration = i.duration ∧
    (Interval.poll (Interval.poll i t1 e1).2 t2 e2).2.state = i.state ∧
    (i.state = State.Delaying →
        (Interval.poll i t1 e1).2.delayDeadline = t1 + i.duration ∧
        (Interval.poll (Interval.poll i t1 e1).2 t2 e2).2.delayDeadline =
          (Interval.poll i t1 e1).2.delayDeadline) ∧
    (i.state = State.Awaiting →
        (Interval.poll i t1 e1).2.delayDeadline = i.delayDeadline ∧
        (Interval.poll (Interval.poll i t1 e1).2 t2 e2).2.delayDeadline =
          t2 + i.duration) := by
  rcases i with ⟨dl, dur, st⟩
  cases st <;> rcases e1 with _ | e1 <;> rcases e2 with _ | e2 <;>
    simp [Interval.poll] <;> split_ifs <;> simp_all

/-- Witness for C10: a first poll that errors has nevertheless re-armed the
deadline, and the following poll leaves that deadline untouched. -/
theorem poll_mutates_before_suspend_witness :
    (Interval.poll ⟨9, 4, State.Delaying⟩ 2 (some TimerError.atCapacity)).2.delayDeadline =
      2 + 4 ∧
    (Interval.poll
        (Interval.poll ⟨9, 4, State.Delaying⟩ 2 (some TimerError.atCapacity)).2
        3 none).2.delayDeadline =
      (Interval.poll ⟨9, 4, State.Delaying⟩ 2 (some TimerError.atCapacity)).2.delayDeadline :=
  (poll_mutates_before_suspend ⟨9, 4, State.Delaying⟩ 2 3
    (some TimerError.atCapacity) none).2.2.2.1 rfl

end SignumMiner
